import Mathlib

/-!
Verification development for the heuristic subscription / gray-charge scoring
engine of the cash-compass backend (src/backend/analytics.py).

The Python code is shallowly embedded as executable Lean definitions:

* pandas timestamps become a calendar `Date` record; day gaps are computed
  through the standard civil-calendar day-number conversion, matching
  numpy timedelta64 day differences;
* float amounts become exact rationals;
* numpy standard deviations are irrational (square roots), so the embedding
  carries the corresponding variances instead and every guard of the form
  std <= c is encoded as the equivalent variance <= c * c (both sides are
  nonnegative, so squaring preserves the comparison), and
  amount > mean + 2 * std as amount - mean > 0 and
  (amount - mean)^2 > 4 * variance;
* None values (and the NaN values they become inside a pandas DataFrame)
  become Option.none; every scoring guard in the source either tests
  "is not None / not isnan" or performs a comparison that is False on NaN,
  which coincides with the none branch contributing nothing;
* pandas sort_values is modelled as a stable insertion sort on the date
  day number; Series.unique keeps the first occurrence, Series.mode returns
  the modes sorted ascending by the Python string order (code-point
  lexicographic), and Python sorted is a stable sort.

Batteries marks Rat.add, Rat.mul, Rat.sub and Rat.inv irreducible, which
blocks evaluation of concrete rational arithmetic inside decide; the
attribute line below restores the default reducibility for this file.
-/

attribute [local semireducible] Rat.add Rat.mul Rat.sub Rat.inv

set_option maxRecDepth 10000

namespace CashCompass

/-! ### Character and string helpers (Python semantics on ASCII data) -/

/-- Python str whitespace test, restricted to the ASCII whitespace that can
appear in the data handled by the engine. -/
def isWs (c : Char) : Bool :=
  c == ' ' || c == '\t' || c == '\n' || c == '\r'

/-- Python str.strip on a character list: drop whitespace from both ends. -/
def trimChars (cs : List Char) : List Char :=
  ((cs.dropWhile isWs).reverse.dropWhile isWs).reverse

/-- Python str.lower (ASCII). -/
def lowerStr (s : String) : String :=
  String.mk (s.data.map Char.toLower)

/-- Python substring containment (pat in s) on character lists. -/
def subOfChars (pat : List Char) : List Char → Bool
  | [] => pat.isEmpty
  | c :: cs => pat.isPrefixOf (c :: cs) || subOfChars pat cs

/-- Python substring containment on strings. -/
def strContains (s pat : String) : Bool :=
  subOfChars pat.data s.data

/-- Python string comparison a < b: code-point lexicographic order. -/
def charListLt : List Char → List Char → Bool
  | [], [] => false
  | [], _ :: _ => true
  | _ :: _, [] => false
  | a :: as, b :: bs => if a < b then true else if b < a then false else charListLt as bs

/-- Python string comparison on strings. -/
def strLtB (a b : String) : Bool :=
  charListLt a.data b.data

/-- normalize_merchant (analytics.py line 52):
merchant.lower().strip().replace(apostrophe, empty).replace(hyphen, space).
The two single-character str.replace calls are a filter (apostrophes are
deleted) followed by a map (each hyphen becomes a space). -/
def normalize_merchant (s : String) : String :=
  String.mk
    ((((trimChars (s.data.map Char.toLower)).filter
        (fun c => c != Char.ofNat 39)).map
        (fun c => if c == '-' then ' ' else c)))

/-- KNOWN_BRANDS allowlist (analytics.py line 45). -/
def KNOWN_BRANDS : List String :=
  ["netflix", "spotify", "amazon", "adobe", "safeway", "starbucks",
   "planetfitness", "apple", "google", "microsoft", "walmart", "target",
   "costco", "hulu", "disney", "hbo", "gym membership", "trader joe"]

/-- is_known_brand (analytics.py line 57): some brand string occurs as a
substring of the normalized merchant name. -/
def is_known_brand (merchant_norm : String) : Bool :=
  KNOWN_BRANDS.any (fun b => strContains merchant_norm b)

/-! ### Dates and transactions -/

/-- A calendar date, as parsed by pandas from the CSV date column. -/
structure Date where
  year : Int
  month : Int
  day : Int
deriving DecidableEq

/-- Day number of a civil date (days since 1970-01-01, the standard
days-from-civil algorithm). Differences of these values are exactly the
numpy timedelta64 day gaps used by the feature extractor. -/
def Date.toDays (dt : Date) : Int :=
  let y : Int := if dt.month ≤ 2 then dt.year - 1 else dt.year
  let era : Int := (if 0 ≤ y then y else y - 399) / 400
  let yoe : Int := y - era * 400
  let mp : Int := if 2 < dt.month then dt.month - 3 else dt.month + 9
  let doy : Int := (153 * mp + 2) / 5 + dt.day - 1
  let doe : Int := yoe * 365 + yoe / 4 - yoe / 100 + doy
  era * 146097 + doe - 719468

/-- One ledger row: date, merchant, category, amount, type
(debit or credit), optional notes. -/
structure Txn where
  date : Date
  merchant : String
  category : String
  amount : Rat
  ttype : String
  notes : String
deriving DecidableEq

/-- The debit rows of the ledger (df[df.type == debit]). -/
def expensesOf (l : List Txn) : List Txn :=
  l.filter (fun t => t.ttype == "debit")

/-- Sorting key used by sort_values(date). -/
def dateLe (a b : Txn) : Prop :=
  a.date.toDays ≤ b.date.toDays

instance : DecidableRel dateLe :=
  fun a b => (inferInstance : Decidable (a.date.toDays ≤ b.date.toDays))

/-- df.sort_values(date), modelled as a stable sort on the day number. -/
def sortByDate (l : List Txn) : List Txn :=
  List.insertionSort dateLe l

/-- The month period assigned by df.date.dt.to_period(M). -/
def monthOf (t : Txn) : Int × Int :=
  (t.date.year, t.date.month)

/-! ### Generic list helpers -/

/-- Series.unique with an explicit seen accumulator: keeps the first
occurrence of every value, in encounter order. -/
def uniqIn {α : Type} [DecidableEq α] : List α → List α → List α
  | _, [] => []
  | seen, x :: xs => if x ∈ seen then uniqIn seen xs else x :: uniqIn (x :: seen) xs

/-- Series.unique: first occurrences in encounter order. -/
def uniqList {α : Type} [DecidableEq α] (l : List α) : List α :=
  uniqIn [] l

/-- Arithmetic mean of a list of rationals (0 on the empty list, which the
pipeline never queries). -/
def meanQ (l : List Rat) : Rat :=
  l.sum / (l.length : Rat)

/-- Population variance (the square of np.std with ddof 0). -/
def popVar (l : List Rat) : Rat :=
  (l.map (fun x => (x - meanQ l) * (x - meanQ l))).sum / (l.length : Rat)

/-- Sample variance (the square of pandas Series.std, ddof 1); none models
the NaN produced on fewer than two values. -/
def sampleVar (l : List Rat) : Option Rat :=
  if 2 ≤ l.length then
    some ((l.map (fun x => (x - meanQ l) * (x - meanQ l))).sum / ((l.length - 1 : Nat) : Rat))
  else none

/-- np.diff on the day numbers of consecutive dates, as rationals. -/
def gapsOf : List Int → List Rat
  | a :: b :: rest => ((b - a : Int) : Rat) :: gapsOf (b :: rest)
  | _ => []

/-- One step of the mode selection: keep the candidate with the larger
count; on a tie keep the smaller string in the Python order. This is
Series.mode().iloc[0], which returns the modes sorted ascending. -/
def pickMode (cats : List String) (best c : String) : String :=
  if cats.count best < cats.count c then c
  else if cats.count c = cats.count best ∧ strLtB c best = true then c
  else best

/-- Series.mode().iloc[0] with the Unknown fallback of analytics.py
line 308: the most frequent string, ties resolved toward the
lexicographically smallest value. -/
def categoryMode (cats : List String) : String :=
  match cats with
  | [] => "Unknown"
  | c :: cs => cs.foldl (pickMode cats) c

/-! ### Merchant feature extraction (compute_merchant_features) -/

/-- The per-merchant feature vector of compute_merchant_features
(analytics.py lines 264-324), before scores are attached.
std_interval_days_sq and amount_std_sq hold the variances (squares of the
np.std values of the source); amount_cv_sq holds the squared coefficient
of variation. Every consumer of these fields in the source compares the
nonnegative std or cv against a nonnegative constant, so carrying squares
is an exact encoding. -/
structure FeatureRow where
  merchant : String
  merchant_norm : String
  num_txns : Nat
  mean_interval_days : Option Rat
  std_interval_days_sq : Option Rat
  amount_mean : Rat
  amount_std_sq : Rat
  amount_cv_sq : Option Rat
  active_days : Int
  price_increase_pct : Option Rat
  category : String
deriving DecidableEq

/-- Feature extraction for one merchant from its date-sorted debit rows
(the body of the loop of compute_merchant_features). -/
def featureRowOf (m : String) (ts : List Txn) : FeatureRow :=
  let n := ts.length
  let amounts := ts.map (fun t => t.amount)
  let dates := ts.map (fun t => t.date.toDays)
  let gaps := gapsOf dates
  let meanInterval : Option Rat := if 2 ≤ n then some (meanQ gaps) else none
  let stdIntervalSq : Option Rat :=
    if 2 ≤ n then some (if 1 < gaps.length then popVar gaps else 0) else none
  let aMean := meanQ amounts
  let aVarSq := popVar amounts
  let aCvSq : Option Rat := if 0 < aMean then some (aVarSq / (aMean * aMean)) else none
  let activeDays : Int :=
    if 2 ≤ n then dates.getLast?.getD 0 - dates.head?.getD 0 else 0
  let firstAmount := amounts.head?.getD 0
  let lastAmount := amounts.getLast?.getD 0
  let priceIncrease : Option Rat :=
    if 0 < firstAmount ∧ 2 ≤ n then some ((lastAmount - firstAmount) / firstAmount) else none
  { merchant := m
    merchant_norm := normalize_merchant m
    num_txns := n
    mean_interval_days := meanInterval
    std_interval_days_sq := stdIntervalSq
    amount_mean := aMean
    amount_std_sq := aVarSq
    amount_cv_sq := aCvSq
    active_days := activeDays
    price_increase_pct := priceIncrease
    category := categoryMode (ts.map (fun t => t.category)) }

/-! ### Subscription scorer (compute_subscription_score), one definition
per additive rule of analytics.py lines 326-375 -/

/-- SUB_CATEGORIES (analytics.py line 25). -/
def SUB_CATEGORIES : List String :=
  ["entertainment", "software", "fitness", "services", "education", "subscription"]

/-- +2 if num_txns >= 3. -/
def ruleNumTxns (f : FeatureRow) : Nat :=
  if 3 ≤ f.num_txns then 2 else 0

/-- +3 if the mean interval is present and within the monthly band [27, 33]. -/
def ruleMonthly (f : FeatureRow) : Nat :=
  match f.mean_interval_days with
  | some v => if 27 ≤ v ∧ v ≤ 33 then 3 else 0
  | none => 0

/-- +3 if the mean interval is present and within the weekly band [6, 8]. -/
def ruleWeekly (f : FeatureRow) : Nat :=
  match f.mean_interval_days with
  | some v => if 6 ≤ v ∧ v ≤ 8 then 3 else 0
  | none => 0

/-- +1 if the interval std is present and at most 3 (variance at most 9). -/
def ruleStdInterval (f : FeatureRow) : Nat :=
  match f.std_interval_days_sq with
  | some v => if v ≤ 9 then 1 else 0
  | none => 0

/-- +2 if the amount cv is present and at most 0.05 (squared cv at most
1/400). -/
def ruleCv (f : FeatureRow) : Nat :=
  match f.amount_cv_sq with
  | some v => if v ≤ 1/400 then 2 else 0
  | none => 0

/-- +1 if the mean amount is within [5, 50]. -/
def ruleAmountBand (f : FeatureRow) : Nat :=
  if 5 ≤ f.amount_mean ∧ f.amount_mean ≤ 50 then 1 else 0

/-- +1 if the mean amount is below 5. -/
def ruleMicroAmount (f : FeatureRow) : Nat :=
  if f.amount_mean < 5 then 1 else 0

/-- +1 if the lower-cased category is one of the subscription categories. -/
def ruleCategory (f : FeatureRow) : Nat :=
  if SUB_CATEGORIES.contains (lowerStr f.category) then 1 else 0

/-- +1 if active at least 90 days with at least 3 transactions. -/
def ruleActiveDays (f : FeatureRow) : Nat :=
  if 90 ≤ f.active_days ∧ 3 ≤ f.num_txns then 1 else 0

/-- +1 if the price increase is present and within [5 percent, 20 percent]. -/
def rulePriceIncrease (f : FeatureRow) : Nat :=
  match f.price_increase_pct with
  | some v => if 1/20 ≤ v ∧ v ≤ 1/5 then 1 else 0
  | none => 0

/-- compute_subscription_score: the sum of the ten additive rules. -/
def compute_subscription_score (f : FeatureRow) : Nat :=
  ruleNumTxns f + ruleMonthly f + ruleWeekly f + ruleStdInterval f + ruleCv f +
    ruleAmountBand f + ruleMicroAmount f + ruleCategory f + ruleActiveDays f +
    rulePriceIncrease f

/-! ### Gray scorer (compute_gray_score, analytics.py lines 377-409) -/

/-- +2 if the mean amount is below 5. -/
def grayMicro (f : FeatureRow) : Nat :=
  if f.amount_mean < 5 then 2 else 0

/-- +1 if the mean amount is between 0.1 and 2 percent of the average
monthly spend (guarded by a positive denominator). -/
def graySpendShare (f : FeatureRow) (avgMonthlySpend : Rat) : Nat :=
  if 0 < avgMonthlySpend then
    if 1/1000 ≤ f.amount_mean / avgMonthlySpend ∧ f.amount_mean / avgMonthlySpend ≤ 1/50
    then 1 else 0
  else 0

/-- +2 if the merchant is not a known brand. -/
def grayUnknownBrand (f : FeatureRow) : Nat :=
  if is_known_brand f.merchant_norm then 0 else 2

/-- +2 if the mean interval is present, within [25, 45], and the mean
amount is below 5. -/
def grayInterval (f : FeatureRow) : Nat :=
  match f.mean_interval_days with
  | some v => if (25 ≤ v ∧ v ≤ 45) ∧ f.amount_mean < 5 then 2 else 0
  | none => 0

/-- +2 if at least 6 transactions with mean amount below 3. -/
def grayHighFreq (f : FeatureRow) : Nat :=
  if 6 ≤ f.num_txns ∧ f.amount_mean < 3 then 2 else 0

/-- +1 if active for more than 180 days with mean amount below 10. -/
def grayLongActive (f : FeatureRow) : Nat :=
  if 180 < f.active_days ∧ f.amount_mean < 10 then 1 else 0

/-- compute_gray_score: the sum of the six additive rules. -/
def compute_gray_score (f : FeatureRow) (avgMonthlySpend : Rat) : Nat :=
  grayMicro f + graySpendShare f avgMonthlySpend + grayUnknownBrand f +
    grayInterval f + grayHighFreq f + grayLongActive f

/-! ### Labeler and tagger (analytics.py lines 411-443) -/

/-- compute_label: ordered threshold check, higher threshold first. -/
def compute_label (subscriptionScore : Nat) : String :=
  if 8 ≤ subscriptionScore then "likely_subscription"
  else if 4 ≤ subscriptionScore then "possible_subscription"
  else "not_subscription"

/-- compute_tags: gray tags (mutually exclusive, higher threshold first),
then the micro tag, then the possibly-unused tag, in source append order. -/
def compute_tags (f : FeatureRow) (label : String) (grayScore : Nat) : List String :=
  (if label = "likely_subscription" ∨ label = "possible_subscription" then
    (if 5 ≤ grayScore then ["gray_recurring_fee"]
     else if 3 ≤ grayScore then ["possibly_gray_recurring_fee"]
     else [])
   else []) ++
  (if label ≠ "not_subscription" ∧ f.amount_mean < 5 then ["micro_subscription"] else []) ++
  (if label = "likely_subscription" ∧
      (lowerStr f.category = "fitness" ∨ lowerStr f.category = "education") then
    ["possibly_unused_subscription"]
   else [])

/-! ### Scoring orchestrator (run_heuristic_scoring, analytics.py
lines 445-525) -/

/-- A fully scored merchant row (MerchantFeatures of models.py). -/
structure MerchantFeatures extends FeatureRow where
  subscription_score : Nat
  gray_score : Nat
  label : String
  tags : List String
deriving DecidableEq

/-- An output transaction carrying its owning merchant annotations
(AnnotatedTransaction of models.py). -/
structure AnnotatedTransaction where
  date : Date
  merchant : String
  category : String
  amount : Rat
  ttype : String
  notes : String
  label : String
  merchant_score : Nat
  merchant_gray_score : Nat
  merchant_tags : List String
deriving DecidableEq

/-- ScoringOutput of models.py. -/
structure ScoringOutput where
  merchants : List MerchantFeatures
  transactions : List AnnotatedTransaction
deriving DecidableEq

/-- Mean of the per-calendar-month summed debit amounts (run_heuristic_scoring
lines 451-453); 0 when there is no debit history. -/
def avgMonthlySpendOf (l : List Txn) : Rat :=
  let ex := expensesOf l
  let months := uniqList (ex.map monthOf)
  let monthlySums :=
    months.map (fun mo => ((ex.filter (fun t => monthOf t == mo)).map (fun t => t.amount)).sum)
  if months.length = 0 then 0 else monthlySums.sum / (months.length : Rat)

/-- The distinct merchants of the date-sorted debit rows, in order of first
appearance (expense_df.sort_values(date).merchant.unique()). -/
def merchantNames (l : List Txn) : List String :=
  uniqList ((sortByDate (expensesOf l)).map (fun t => t.merchant))

/-- The debit rows of one merchant, date-sorted (the m_df of the feature
loop: sorted expense frame filtered to the merchant and sorted again; the
second stable sort of an already sorted list is kept for fidelity). -/
def merchantTxns (l : List Txn) (m : String) : List Txn :=
  sortByDate ((sortByDate (expensesOf l)).filter (fun t => t.merchant == m))

/-- Features plus scores, label and tags for one merchant (the score,
label and tag columns added in run_heuristic_scoring lines 461-466). -/
def scoredMerchant (l : List Txn) (avgMonthlySpend : Rat) (m : String) : MerchantFeatures :=
  let f := featureRowOf m (merchantTxns l m)
  let s := compute_subscription_score f
  let g := compute_gray_score f avgMonthlySpend
  let lab := compute_label s
  { toFeatureRow := f
    subscription_score := s
    gray_score := g
    label := lab
    tags := compute_tags f lab g }

/-- The annotation join of run_heuristic_scoring lines 489-523: look the
merchant up in the feature table; annotate with its label, scores and tags
when found, with the neutral defaults otherwise. -/
def annotateTxn (ms : List MerchantFeatures) (t : Txn) : AnnotatedTransaction :=
  match ms.find? (fun r => r.merchant == t.merchant) with
  | some r =>
    { date := t.date, merchant := t.merchant, category := t.category,
      amount := t.amount, ttype := t.ttype, notes := t.notes,
      label := r.label, merchant_score := r.subscription_score,
      merchant_gray_score := r.gray_score, merchant_tags := r.tags }
  | none =>
    { date := t.date, merchant := t.merchant, category := t.category,
      amount := t.amount, ttype := t.ttype, notes := t.notes,
      label := "not_subscription", merchant_score := 0,
      merchant_gray_score := 0, merchant_tags := [] }

/-- run_heuristic_scoring: empty guard, average monthly spend, merchant
features with scores, and the annotation join over every transaction in
original ledger order. -/
def run_heuristic_scoring (l : List Txn) : ScoringOutput :=
  if l.isEmpty then ⟨[], []⟩
  else
    let avg := avgMonthlySpendOf l
    let ms := (merchantNames l).map (scoredMerchant l avg)
    if ms.isEmpty then ⟨[], []⟩
    else ⟨ms, l.map (annotateTxn ms)⟩

/-! ### Subscription summary (detect_subscriptions, analytics.py
lines 527-574) -/

/-- Subscription of models.py (last_charge kept as a date value; the
source formats it to the same calendar day as a string). -/
structure Subscription where
  merchant : String
  amount : Rat
  frequency : String
  last_charge : Date
  total_spent : Rat
  is_gray_charge : Bool
  confidence : String
deriving DecidableEq

/-- m_df.date.max(): latest date of a transaction list (the fallback value
is never used, the source only calls this on nonempty frames). -/
def maxDateOf : List Txn → Date
  | [] => ⟨1970, 1, 1⟩
  | t :: ts => ts.foldl (fun acc u => if acc.toDays < u.date.toDays then u.date else acc) t.date

/-- Sort key of the subscription summary: descending total_spent. -/
def spentGe (a b : Subscription) : Prop :=
  b.total_spent ≤ a.total_spent

instance : DecidableRel spentGe :=
  fun a b => (inferInstance : Decidable (b.total_spent ≤ a.total_spent))

instance : IsTotal Subscription spentGe :=
  ⟨fun a b => le_total b.total_spent a.total_spent⟩

instance : IsTrans Subscription spentGe :=
  ⟨fun _ _ _ h h2 => le_trans h2 h⟩

/-- The summary row built for one qualifying merchant by the loop body of
detect_subscriptions (analytics.py lines 540-572): total spent and last
charge recomputed from the debit rows, frequency from the interval bands
(a merchant without interval data falls to recurring), confidence from the
label, gray flag from the tags. -/
def subscriptionOf (ex : List Txn) (m : MerchantFeatures) : Subscription :=
  let mdf := ex.filter (fun t => t.merchant == m.merchant)
  { merchant := m.merchant
    amount := m.amount_mean
    frequency :=
      match m.mean_interval_days with
      | some v =>
        if 6 ≤ v ∧ v ≤ 8 then "weekly"
        else if 27 ≤ v ∧ v ≤ 33 then "monthly"
        else "recurring"
      | none => "recurring"
    last_charge := maxDateOf mdf
    total_spent := (mdf.map (fun t => t.amount)).sum
    is_gray_charge :=
      m.tags.contains "gray_recurring_fee" ||
        m.tags.contains "possibly_gray_recurring_fee"
    confidence := if m.label == "likely_subscription" then "high" else "medium" }

/-- detect_subscriptions: keep the likely and possible merchants, build
their summary rows, and sort by descending total spent (Python sorted is
stable). -/
def detect_subscriptions (l : List Txn) : List Subscription :=
  if l.isEmpty then []
  else
    List.insertionSort spentGe
      (((run_heuristic_scoring l).merchants.filter
        (fun m => m.label == "likely_subscription" || m.label == "possible_subscription")).map
        (subscriptionOf (expensesOf l)))

/-! ### Anomaly detector (_detect_anomalies, analytics.py lines 219-258) -/

/-- One reported anomaly (the identifying fields of the dicts built by
_detect_anomalies; the purely informational fields avg_for_category,
deviation and note are derived from the same row and category statistics
and are omitted). -/
structure AnomalyEntry where
  date : Date
  merchant : String
  category : String
  amount : Rat
deriving DecidableEq

/-- The anomaly dict built from a transaction row. -/
def mkEntry (t : Txn) : AnomalyEntry :=
  ⟨t.date, t.merchant, t.category, t.amount⟩

/-- The outlier test amount > mean + 2 * std where std is the sample
standard deviation, encoded on the variance: a positive deviation whose
square exceeds 4 * variance. A none variance is the NaN of a single-row
category, whose float comparison is False. -/
def statOutlierCond (mean : Rat) (v : Option Rat) (x : Rat) : Bool :=
  match v with
  | some vv => decide (0 < x - mean ∧ 4 * vv < (x - mean) * (x - mean))
  | none => false

/-- notes.str.contains(Anomaly|anomaly, case=False): the lower-cased notes
contain the substring anomaly. -/
def hasAnomalyNote (t : Txn) : Bool :=
  strContains (lowerStr t.notes) "anomaly"

/-- The statistical outliers of one category (the body of the category
loop of _detect_anomalies): skip the category when the sample variance is
zero, otherwise keep the rows above the threshold. For a row t kept here
t.category equals the loop category, so mkEntry t carries the same
category string the source stores. -/
def statCat (ex : List Txn) (c : String) : List AnomalyEntry :=
  let cdf := ex.filter (fun t => t.category == c)
  let mean := meanQ (cdf.map (fun t => t.amount))
  let v := sampleVar (cdf.map (fun t => t.amount))
  if v = some 0 then []
  else (cdf.filter (fun t => statOutlierCond mean v t.amount)).map mkEntry

/-- The per-category statistical pass of _detect_anomalies, in category
first-appearance order. -/
def statEntries (ex : List Txn) : List AnomalyEntry :=
  (uniqList (ex.map (fun t => t.category))).foldr (fun c acc => statCat ex c ++ acc) []

/-- The notes pass: append each note-flagged row unless an already
collected anomaly shares its merchant and date. -/
def noteFold : List AnomalyEntry → List Txn → List AnomalyEntry
  | acc, [] => acc
  | acc, t :: ts =>
    if acc.any (fun a => a.merchant == t.merchant && a.date == t.date)
    then noteFold acc ts
    else noteFold (acc ++ [mkEntry t]) ts

/-- Sort key of the anomaly report: descending amount. -/
def amountGe (a b : AnomalyEntry) : Prop :=
  b.amount ≤ a.amount

instance : DecidableRel amountGe :=
  fun a b => (inferInstance : Decidable (b.amount ≤ a.amount))

instance : IsTotal AnomalyEntry amountGe :=
  ⟨fun a b => le_total b.amount a.amount⟩

instance : IsTrans AnomalyEntry amountGe :=
  ⟨fun _ _ _ h h2 => le_trans h2 h⟩

/-- _detect_anomalies: statistical outliers per category, then the
note-flagged rows de-duplicated by merchant and date against everything
collected so far, sorted by descending amount (Python sorted is stable). -/
def detect_anomalies (l : List Txn) : List AnomalyEntry :=
  if l.isEmpty then []
  else
    let ex := expensesOf l
    let merged := noteFold (statEntries ex) (ex.filter hasAnomalyNote)
    List.insertionSort amountGe merged

/-- Forgetting the annotations of an output transaction gives back a ledger
row; used to state that the join preserves the input transactions. -/
def stripAnnotated (a : AnnotatedTransaction) : Txn :=
  ⟨a.date, a.merchant, a.category, a.amount, a.ttype, a.notes⟩

/-- The scored merchant table of a ledger (the merchant_df rows of
run_heuristic_scoring with their score, label and tag columns). -/
def msOf (l : List Txn) : List MerchantFeatures :=
  (merchantNames l).map (scoredMerchant l (avgMonthlySpendOf l))

/-! ### Helper lemmas -/

theorem mem_uniqIn {α : Type} [DecidableEq α] (l : List α) :
    ∀ (seen : List α) (a : α), a ∈ uniqIn seen l ↔ a ∈ l ∧ a ∉ seen := by
  induction l with
  | nil => intro seen a; simp [uniqIn]
  | cons x xs ih =>
    intro seen a
    by_cases hx : x ∈ seen
    · simp only [uniqIn, if_pos hx, ih]
      constructor
      · rintro ⟨ha, hs⟩
        exact ⟨List.mem_cons_of_mem _ ha, hs⟩
      · rintro ⟨ha, hs⟩
        rcases List.mem_cons.mp ha with rfl | ha
        · exact absurd hx hs
        · exact ⟨ha, hs⟩
    · simp only [uniqIn, if_neg hx, List.mem_cons, ih]
      constructor
      · rintro (rfl | ⟨ha, hs⟩)
        · exact ⟨Or.inl rfl, hx⟩
        · exact ⟨Or.inr ha, fun h => hs (Or.inr h)⟩
      · rintro ⟨rfl | ha, hs⟩
        · exact Or.inl rfl
        · by_cases hax : a = x
          · exact Or.inl hax
          · refine Or.inr ⟨ha, fun h => ?_⟩
            rcases h with h1 | h2
            · exact hax h1
            · exact hs h2

theorem nodup_uniqIn {α : Type} [DecidableEq α] (l : List α) :
    ∀ seen : List α, (uniqIn seen l).Nodup := by
  induction l with
  | nil => intro seen; simp [uniqIn]
  | cons x xs ih =>
    intro seen
    by_cases hx : x ∈ seen
    · simpa [uniqIn, if_pos hx] using ih seen
    · simp only [uniqIn, if_neg hx]
      refine List.Nodup.cons ?_ (ih (x :: seen))
      intro hmem
      exact ((mem_uniqIn xs (x :: seen) x).mp hmem).2 (List.mem_cons_self x seen)

theorem mem_uniqList {α : Type} [DecidableEq α] {l : List α} {a : α} :
    a ∈ uniqList l ↔ a ∈ l := by
  simp [uniqList, mem_uniqIn]

theorem nodup_uniqList {α : Type} [DecidableEq α] (l : List α) :
    (uniqList l).Nodup :=
  nodup_uniqIn l []

theorem charListLt_trans :
    ∀ (a b c : List Char), charListLt a b = true → charListLt b c = true →
      charListLt a c = true := by
  intro a
  induction a with
  | nil =>
    intro b c hab hbc
    cases b with
    | nil => simp [charListLt] at hab
    | cons y bs =>
      cases c with
      | nil => simp [charListLt] at hbc
      | cons z cs => simp [charListLt]
  | cons x as ih =>
    intro b c hab hbc
    cases b with
    | nil => simp [charListLt] at hab
    | cons y bs =>
      cases c with
      | nil => simp [charListLt] at hbc
      | cons z cs =>
        simp only [charListLt] at hab hbc ⊢
        rcases lt_trichotomy x y with hxy | hxy | hxy
        · rcases lt_trichotomy y z with hyz | hyz | hyz
          · simp [lt_trans hxy hyz]
          · subst hyz; simp [hxy]
          · simp only [if_pos hxy] at hab
            simp only [if_neg (lt_asymm hyz), if_pos hyz] at hbc
            exact absurd hbc (by simp)
        · subst hxy
          simp only [lt_irrefl, if_neg (lt_irrefl x), if_false] at hab
          rcases lt_trichotomy x z with hxz | hxz | hxz
          · simp [hxz]
          · subst hxz
            simp only [lt_irrefl, if_neg (lt_irrefl x), if_false] at hbc ⊢
            exact ih bs cs hab hbc
          · simp only [if_neg (lt_asymm hxz), if_pos hxz] at hbc
            exact absurd hbc (by simp)
        · simp only [if_neg (lt_asymm hxy), if_pos hxy] at hab
          exact absurd hab (by simp)

theorem charListLt_conn :
    ∀ (a b : List Char), charListLt a b = false →
      a = b ∨ charListLt b a = true := by
  intro a
  induction a with
  | nil =>
    intro b hab
    cases b with
    | nil => exact Or.inl rfl
    | cons y bs => simp [charListLt] at hab
  | cons x as ih =>
    intro b hab
    cases b with
    | nil => exact Or.inr (by simp [charListLt])
    | cons y bs =>
      simp only [charListLt] at hab ⊢
      rcases lt_trichotomy x y with hxy | hxy | hxy
      · simp [hxy] at hab
      · subst hxy
        simp only [lt_irrefl, if_neg (lt_irrefl x), if_false] at hab ⊢
        rcases ih bs hab with rfl | h
        · exact Or.inl rfl
        · exact Or.inr h
      · exact Or.inr (by simp [hxy])

theorem scoredMerchant_merchant (l : List Txn) (avg : Rat) (m : String) :
    (scoredMerchant l avg m).merchant = m := rfl

theorem msOf_map_merchant (l : List Txn) :
    (msOf l).map (fun r => r.merchant) = merchantNames l := by
  simp [msOf, List.map_map]
  exact List.map_id _

theorem nodup_msOf_merchants (l : List Txn) :
    ((msOf l).map (fun r => r.merchant)).Nodup := by
  rw [msOf_map_merchant]
  exact nodup_uniqList _

theorem stripAnnotated_annotateTxn (ms : List MerchantFeatures) (t : Txn) :
    stripAnnotated (annotateTxn ms t) = t := by
  unfold annotateTxn
  cases ms.find? (fun r => r.merchant == t.merchant) <;> rfl

theorem annotateTxn_merchant (ms : List MerchantFeatures) (t : Txn) :
    (annotateTxn ms t).merchant = t.merchant := by
  unfold annotateTxn
  cases ms.find? (fun r => r.merchant == t.merchant) <;> rfl

theorem merchantNames_ne_nil {l : List Txn} (h : expensesOf l ≠ []) :
    merchantNames l ≠ [] := by
  obtain ⟨t, ts, hts⟩ := List.exists_cons_of_ne_nil h
  have hmem : t ∈ sortByDate (expensesOf l) := by
    unfold sortByDate
    rw [List.Perm.mem_iff (List.perm_insertionSort dateLe (expensesOf l))]
    simp [hts]
  have : t.merchant ∈ merchantNames l := by
    rw [merchantNames, mem_uniqList]
    exact List.mem_map_of_mem (fun u => u.merchant) hmem
  exact List.ne_nil_of_mem this

theorem run_eq (l : List Txn) (h : expensesOf l ≠ []) :
    run_heuristic_scoring l = ⟨msOf l, l.map (annotateTxn (msOf l))⟩ := by
  have hl : l ≠ [] := by
    intro hnil
    exact h (by simp [expensesOf, hnil])
  have hl2 : l.isEmpty = false := by
    cases l with
    | nil => exact absurd rfl hl
    | cons a as => rfl
  have hms : (msOf l).isEmpty = false := by
    obtain ⟨n, ns, hns⟩ := List.exists_cons_of_ne_nil (merchantNames_ne_nil h)
    simp [msOf, hns]
  rw [run_heuristic_scoring]
  rw [hl2]
  simp only [Bool.false_eq_true, if_false]
  rw [show ((merchantNames l).map (scoredMerchant l (avgMonthlySpendOf l))) = msOf l from rfl]
  rw [hms]
  simp

theorem run_empty (l : List Txn) (hex : expensesOf l = []) :
    run_heuristic_scoring l = ⟨[], []⟩ := by
  by_cases hl : l.isEmpty = true
  · simp [run_heuristic_scoring, hl]
  · have hms : ((merchantNames l).map (scoredMerchant l (avgMonthlySpendOf l))) = [] := by
      simp [merchantNames, hex, sortByDate, uniqList, uniqIn, List.insertionSort]
    simp [run_heuristic_scoring, hl, hms]

/-- Bound used by C4: the additive subscription scorer never exceeds 12,
because the monthly and weekly interval bands are disjoint and the two
amount rules are mutually exclusive. -/
theorem sub_score_le_twelve (f : FeatureRow) : compute_subscription_score f ≤ 12 := by
  have h1 : ruleNumTxns f ≤ 2 := by
    unfold ruleNumTxns; split <;> omega
  have hmw : ruleMonthly f + ruleWeekly f ≤ 3 := by
    cases hv : f.mean_interval_days with
    | none => simp [ruleMonthly, ruleWeekly, hv]
    | some v =>
      simp only [ruleMonthly, ruleWeekly, hv]
      by_cases hm : 27 ≤ v ∧ v ≤ 33
      · by_cases hw : 6 ≤ v ∧ v ≤ 8
        · exact absurd (hm.1.trans hw.2) (by norm_num)
        · simp [hm, hw]
      · by_cases hw : 6 ≤ v ∧ v ≤ 8 <;> simp [hm, hw]
  have h3 : ruleStdInterval f ≤ 1 := by
    cases hv : f.std_interval_days_sq with
    | none => simp [ruleStdInterval, hv]
    | some v => simp only [ruleStdInterval, hv]; split <;> omega
  have h4 : ruleCv f ≤ 2 := by
    cases hv : f.amount_cv_sq with
    | none => simp [ruleCv, hv]
    | some v => simp only [ruleCv, hv]; split <;> omega
  have hab : ruleAmountBand f + ruleMicroAmount f ≤ 1 := by
    unfold ruleAmountBand ruleMicroAmount
    by_cases hb : 5 ≤ f.amount_mean ∧ f.amount_mean ≤ 50
    · by_cases hmi : f.amount_mean < 5
      · exact absurd (lt_of_le_of_lt hb.1 hmi) (lt_irrefl _)
      · simp [hb, hmi]
    · by_cases hmi : f.amount_mean < 5 <;> simp [hb, hmi]
  have h7 : ruleCategory f ≤ 1 := by
    unfold ruleCategory; split <;> omega
  have h8 : ruleActiveDays f ≤ 1 := by
    unfold ruleActiveDays; split <;> omega
  have h9 : rulePriceIncrease f ≤ 1 := by
    cases hv : f.price_increase_pct with
    | none => simp [rulePriceIncrease, hv]
    | some v => simp only [rulePriceIncrease, hv]; split <;> omega
  unfold compute_subscription_score
  omega

/-- A feature vector attaining subscription score 12: three transactions,
a 30 day mean interval with zero variance, zero squared cv, mean amount 10,
a subscription category, 90 active days and a 10 percent price increase. -/
def featTwelve : FeatureRow :=
  ⟨"s12", "s12", 3, some 30, some 0, 10, 0, some 0, 90, some (1/10), "software"⟩

/-- C4 (corrected): the subscription scorer is bounded by 12, and 12 is
attained; the maximum claimed by the spec, 15, is the sum of all rule
bonuses minus only one of the two mutual exclusions. -/
theorem C4_theorem :
    (∀ f : FeatureRow, compute_subscription_score f ≤ 12) ∧
    (∃ f : FeatureRow, compute_subscription_score f = 12) :=
  ⟨sub_score_le_twelve, ⟨featTwelve, by decide⟩⟩

/-- C4 counterexample: no feature vector attains subscription score 15,
refuting the reachability half of the claim. -/
theorem C4_counterexample :
    ¬ ∃ f : FeatureRow, compute_subscription_score f = 15 := by
  rintro ⟨f, hf⟩
  have := sub_score_le_twelve f
  omega

/-- The threshold-boundary feature vector of the claim: num_txns 3, mean
interval 30, zero interval variance, zero squared cv, mean amount 15,
category software, 90 active days, absent price increase. -/
def featEleven : FeatureRow :=
  ⟨"m8", "m8", 3, some 30, some 0, 15, 0, some 0, 90, none, "software"⟩

/-- C8 (confirmed): the boundary vector earns exactly the bonuses
2 (num_txns) + 3 (monthly) + 1 (interval std) + 2 (cv) + 1 (amount band) +
1 (category) + 1 (active days) = 11 and is labeled likely_subscription. -/
theorem C8_theorem :
    ruleNumTxns featEleven = 2 ∧ ruleMonthly featEleven = 3 ∧
    ruleWeekly featEleven = 0 ∧ ruleStdInterval featEleven = 1 ∧
    ruleCv featEleven = 2 ∧ ruleAmountBand featEleven = 1 ∧
    ruleMicroAmount featEleven = 0 ∧ ruleCategory featEleven = 1 ∧
    ruleActiveDays featEleven = 1 ∧ rulePriceIncrease featEleven = 0 ∧
    compute_subscription_score featEleven = 11 ∧
    compute_label (compute_subscription_score featEleven) = "likely_subscription" := by
  decide

/-- The normalization the claim describes: lower-case, strip, and DELETE
both apostrophes and hyphens. -/
def normalizeClaim (s : String) : String :=
  String.mk ((trimChars (s.data.map Char.toLower)).filter
    (fun c => c != Char.ofNat 39 && c != '-'))

/-- The normalization the code performs, stated in the amended form:
lower-case, strip, replace each hyphen with a space, delete apostrophes
(the source applies the apostrophe deletion first; the two single-character
edits commute). -/
def normalizeAmended (s : String) : String :=
  String.mk (((trimChars (s.data.map Char.toLower)).map
    (fun c => if c == '-' then ' ' else c)).filter (fun c => c != Char.ofNat 39))

theorem filter_apos_map_hyphen_comm (cs : List Char) :
    (cs.filter (fun c => c != Char.ofNat 39)).map (fun c => if c == '-' then ' ' else c) =
    (cs.map (fun c => if c == '-' then ' ' else c)).filter (fun c => c != Char.ofNat 39) := by
  induction cs with
  | nil => rfl
  | cons c cs ih =>
    simp only [List.filter_cons, List.map_cons]
    by_cases h39 : c = Char.ofNat 39
    · subst h39
      have e1 : ((Char.ofNat 39 != Char.ofNat 39)) = false := rfl
      have e2 : ((if (Char.ofNat 39 == '-') = true then ' ' else Char.ofNat 39)) =
          Char.ofNat 39 := rfl
      simp only [e1, Bool.false_eq_true, if_false, e2, ih]
    · have e1 : ((c != Char.ofNat 39)) = true := by
        simp [bne_iff_ne, h39]
      have e2 : (((if (c == '-') = true then ' ' else c) != Char.ofNat 39)) = true := by
        by_cases hcd : c = '-'
        · subst hcd; rfl
        · simp [beq_eq_false_iff_ne.mpr hcd, bne_iff_ne, h39]
      simp only [e1, if_true, List.map_cons, e2, ih]

/-- C5 (amended): normalize lower-cases, strips leading and trailing
whitespace, deletes apostrophes and replaces each hyphen with a space. -/
theorem C5_theorem (s : String) : normalize_merchant s = normalizeAmended s :=
  congrArg String.mk (filter_apos_map_hyphen_comm _)

/-- C5 counterexample: on the merchant a-b the code produces a space where
the claim requires the hyphen to be deleted outright. -/
theorem C5_counterexample :
    normalize_merchant "a-b" = "a b" ∧ normalizeClaim "a-b" = "ab" ∧
    normalize_merchant "a-b" ≠ normalizeClaim "a-b" := by
  decide

/-- C7 (confirmed): a merchant with exactly one debit transaction has
absent interval mean, absent interval variance, absent price increase and
zero active days, and every interval, std, or price dependent rule of the
subscription and gray scorers contributes exactly 0; absence is a distinct
none value handled by pattern matching, never a zero compared
arithmetically. -/
theorem C7_theorem (m : String) (ts : List Txn) (h : ts.length = 1) :
    (featureRowOf m ts).mean_interval_days = none ∧
    (featureRowOf m ts).std_interval_days_sq = none ∧
    (featureRowOf m ts).price_increase_pct = none ∧
    (featureRowOf m ts).active_days = 0 ∧
    ruleMonthly (featureRowOf m ts) = 0 ∧
    ruleWeekly (featureRowOf m ts) = 0 ∧
    ruleStdInterval (featureRowOf m ts) = 0 ∧
    rulePriceIncrease (featureRowOf m ts) = 0 ∧
    grayInterval (featureRowOf m ts) = 0 := by
  cases ts with
  | nil => simp at h
  | cons t rest =>
    cases rest with
    | nil =>
      simp [featureRowOf, ruleMonthly, ruleWeekly, ruleStdInterval,
        rulePriceIncrease, grayInterval]
    | cons t2 r2 => simp at h

/-- A one-debit ledger row used by several witnesses. -/
def exT1 : Txn := ⟨⟨2024, 1, 5⟩, "x", "software", 10, "debit", ""⟩

/-- A credit row on the same merchant as exT1. -/
def exT2c : Txn := ⟨⟨2024, 1, 20⟩, "x", "software", 10, "credit", ""⟩

/-- A credit row on a merchant with no debit activity. -/
def exT3c : Txn := ⟨⟨2024, 1, 20⟩, "y", "salary", 100, "credit", ""⟩

theorem C7_witness :
    (featureRowOf "x" [exT1]).mean_interval_days = none ∧
    (featureRowOf "x" [exT1]).std_interval_days_sq = none ∧
    (featureRowOf "x" [exT1]).price_increase_pct = none ∧
    (featureRowOf "x" [exT1]).active_days = 0 ∧
    ruleMonthly (featureRowOf "x" [exT1]) = 0 ∧
    ruleWeekly (featureRowOf "x" [exT1]) = 0 ∧
    ruleStdInterval (featureRowOf "x" [exT1]) = 0 ∧
    rulePriceIncrease (featureRowOf "x" [exT1]) = 0 ∧
    grayInterval (featureRowOf "x" [exT1]) = 0 :=
  C7_theorem "x" [exT1] rfl

/-- C1 (amended): a credit transaction whose merchant is absent from the
merchant feature roster is annotated with the neutral defaults; credits
sharing a merchant with debit activity inherit that merchant's features
(see the counterexample). -/
theorem C1_theorem (l : List Txn) (a : AnnotatedTransaction)
    (ha : a ∈ (run_heuristic_scoring l).transactions)
    (hc : a.ttype = "credit")
    (habs : ∀ mf ∈ (run_heuristic_scoring l).merchants, mf.merchant ≠ a.merchant) :
    a.label = "not_subscription" ∧ a.merchant_score = 0 ∧
    a.merchant_gray_score = 0 ∧ a.merchant_tags = [] := by
  by_cases hex : expensesOf l = []
  · rw [run_empty l hex] at ha
    simp at ha
  · rw [run_eq l hex] at ha habs
    obtain ⟨t, ht, rfl⟩ := List.mem_map.mp (show _ ∈ l.map (annotateTxn (msOf l)) from ha)
    cases hfind : (msOf l).find? (fun r => r.merchant == t.merchant) with
    | none =>
      unfold annotateTxn
      rw [hfind]
      exact ⟨rfl, rfl, rfl, rfl⟩
    | some r =>
      exfalso
      have hrmem : r ∈ msOf l := List.mem_of_find?_eq_some hfind
      have hrt : r.merchant = t.merchant := by
        have hpred := List.find?_some hfind
        simpa using hpred
      have hne := habs r hrmem
      rw [annotateTxn_merchant] at hne
      exact hne hrt

/-- The neutral annotated credit row produced for the C1 witness ledger. -/
def exNeutralCredit : AnnotatedTransaction :=
  ⟨⟨2024, 1, 20⟩, "y", "salary", 100, "credit", "", "not_subscription", 0, 0, []⟩

theorem C1_witness :
    exNeutralCredit.label = "not_subscription" ∧ exNeutralCredit.merchant_score = 0 ∧
    exNeutralCredit.merchant_gray_score = 0 ∧ exNeutralCredit.merchant_tags = [] :=
  C1_theorem [exT1, exT3c] exNeutralCredit (by decide) (by decide) (by decide)

/-- C1 counterexample: in a ledger where the merchant x has one debit and
one credit, the credit transaction is annotated with the merchant's label
possible_subscription and score 4, not with the neutral defaults the claim
requires for every credit. -/
theorem C1_counterexample :
    ∃ a : AnnotatedTransaction,
      a ∈ (run_heuristic_scoring [exT1, exT2c]).transactions ∧
      a.ttype = "credit" ∧ a.label ≠ "not_subscription" ∧ a.merchant_score ≠ 0 := by
  refine ⟨⟨⟨2024, 1, 20⟩, "x", "software", 10, "credit", "",
    "possible_subscription", 4, 2, []⟩, ?_, rfl, ?_, ?_⟩
  · decide
  · decide
  · decide

/-- C2 (amended): the pipeline is a pure function of the ordered ledger,
and the annotated transaction list returns the input transactions in their
original order (whenever at least one debit exists); consequently two runs
on the identical ordered ledger agree, but a reordered ledger produces a
reordered, non-identical output (see the counterexample). -/
theorem C2_theorem (l : List Txn) (h : expensesOf l ≠ []) :
    (run_heuristic_scoring l).transactions.map stripAnnotated = l := by
  rw [run_eq l h]
  show (l.map (annotateTxn (msOf l))).map stripAnnotated = l
  rw [List.map_map]
  have hsa : stripAnnotated ∘ annotateTxn (msOf l) = id :=
    funext (fun t => stripAnnotated_annotateTxn _ t)
  rw [hsa, List.map_id]

theorem C2_witness :
    (run_heuristic_scoring [exT1]).transactions.map stripAnnotated = [exT1] :=
  C2_theorem [exT1] (by decide)

/-- Two debit rows for distinct merchants on distinct dates. -/
def exTP : Txn := ⟨⟨2024, 1, 5⟩, "p", "food", 10, "debit", ""⟩

/-- Companion row to exTP. -/
def exTQ : Txn := ⟨⟨2024, 1, 20⟩, "q", "food", 20, "debit", ""⟩

/-- C2 counterexample: the two orderings of the same two-transaction
multiset produce different ScoringOutput values (the annotated transaction
lists come out in the two different input orders). -/
theorem C2_counterexample :
    List.Perm [exTP, exTQ] [exTQ, exTP] ∧
    run_heuristic_scoring [exTP, exTQ] ≠ run_heuristic_scoring [exTQ, exTP] := by
  constructor
  · exact List.Perm.swap exTQ exTP []
  · decide

/-- C3 (confirmed): every annotated transaction agrees with the roster row
of its merchant on label, subscription score, gray score and tags. -/
theorem C3_theorem (l : List Txn) (a : AnnotatedTransaction) (mf : MerchantFeatures)
    (ha : a ∈ (run_heuristic_scoring l).transactions)
    (hmf : mf ∈ (run_heuristic_scoring l).merchants)
    (heq : a.merchant = mf.merchant) :
    a.label = mf.label ∧ a.merchant_score = mf.subscription_score ∧
    a.merchant_gray_score = mf.gray_score ∧ a.merchant_tags = mf.tags := by
  by_cases hex : expensesOf l = []
  · rw [run_empty l hex] at hmf
    simp at hmf
  · rw [run_eq l hex] at ha hmf
    obtain ⟨t, ht, rfl⟩ := List.mem_map.mp (show _ ∈ l.map (annotateTxn (msOf l)) from ha)
    have htm : (annotateTxn (msOf l) t).merchant = t.merchant := annotateTxn_merchant _ _
    have hmt : mf.merchant = t.merchant := heq.symm.trans htm
    cases hfind : (msOf l).find? (fun r => r.merchant == t.merchant) with
    | none =>
      exfalso
      have hall := List.find?_eq_none.mp hfind mf (show mf ∈ msOf l from hmf)
      exact hall (by simp [hmt])
    | some r =>
      have hrt : r.merchant = t.merchant := by
        have hpred := List.find?_some hfind
        simpa using hpred
      have hrmem : r ∈ msOf l := List.mem_of_find?_eq_some hfind
      have hmr : mf = r :=
        List.inj_on_of_nodup_map (nodup_msOf_merchants l)
          (show mf ∈ msOf l from hmf) hrmem (hmt.trans hrt.symm)
      subst hmr
      unfold annotateTxn
      rw [hfind]
      exact ⟨rfl, rfl, rfl, rfl⟩

/-- The scored roster row for the single-debit merchant x of exT1. -/
def exMerchX : MerchantFeatures :=
  ⟨⟨"x", "x", 1, none, none, 10, 0, some 0, 0, none, "software"⟩,
    4, 2, "possible_subscription", []⟩

/-- The annotated transaction produced for exT1. -/
def exAnnX : AnnotatedTransaction :=
  ⟨⟨2024, 1, 5⟩, "x", "software", 10, "debit", "", "possible_subscription", 4, 2, []⟩

theorem C3_witness :
    exAnnX.label = exMerchX.label ∧
    exAnnX.merchant_score = exMerchX.subscription_score ∧
    exAnnX.merchant_gray_score = exMerchX.gray_score ∧
    exAnnX.merchant_tags = exMerchX.tags :=
  C3_theorem [exT1] exAnnX exMerchX (by decide) (by decide) rfl

theorem strLtB_trans {a b c : String} (h1 : strLtB a b = true) (h2 : strLtB b c = true) :
    strLtB a c = true :=
  charListLt_trans a.data b.data c.data h1 h2

theorem strLtB_conn {a b : String} (h : strLtB a b = false) :
    a = b ∨ strLtB b a = true := by
  rcases charListLt_conn a.data b.data h with he | hl
  · left
    cases a with
    | mk da =>
      cases b with
      | mk db => simp only at he; rw [he]
  · right
    exact hl

/-- Invariant of the mode-selection fold: the running best is one of the
candidates, carries a maximal count, and among equal counts is the
lexicographically smallest in the Python string order. -/
theorem foldl_pickMode_spec (cats : List String) :
    ∀ (rest : List String) (b : String),
      (rest.foldl (pickMode cats) b = b ∨ rest.foldl (pickMode cats) b ∈ rest) ∧
      cats.count b ≤ cats.count (rest.foldl (pickMode cats) b) ∧
      (∀ c ∈ rest, cats.count c ≤ cats.count (rest.foldl (pickMode cats) b)) ∧
      (cats.count b = cats.count (rest.foldl (pickMode cats) b) →
        rest.foldl (pickMode cats) b = b ∨
          strLtB (rest.foldl (pickMode cats) b) b = true) ∧
      (∀ c ∈ rest, cats.count c = cats.count (rest.foldl (pickMode cats) b) →
        rest.foldl (pickMode cats) b = c ∨
          strLtB (rest.foldl (pickMode cats) b) c = true) := by
  intro rest
  induction rest with
  | nil =>
    intro b
    refine ⟨Or.inl rfl, le_refl _, ?_, fun _ => Or.inl rfl, ?_⟩
    · intro c hc; simp at hc
    · intro c hc; simp at hc
  | cons c rest2 ih =>
    intro b
    rw [show (c :: rest2).foldl (pickMode cats) b =
      rest2.foldl (pickMode cats) (pickMode cats b c) from rfl]
    by_cases hA : cats.count b < cats.count c
    · rw [show pickMode cats b c = c from by unfold pickMode; rw [if_pos hA]]
      obtain ⟨ih1, ih2, ih3, ih4, ih5⟩ := ih c
      refine ⟨?_, ?_, ?_, ?_, ?_⟩
      · rcases ih1 with hfc | hfm
        · exact Or.inr (by rw [hfc]; exact List.mem_cons_self c rest2)
        · exact Or.inr (List.mem_cons_of_mem c hfm)
      · exact le_trans (le_of_lt hA) ih2
      · intro d hd
        rcases List.mem_cons.mp hd with hdc | hd2
        · rw [hdc]; exact ih2
        · exact ih3 d hd2
      · intro hcount
        exact absurd (lt_of_lt_of_le hA ih2) (by omega)
      · intro d hd hcount
        rcases List.mem_cons.mp hd with hdc | hd2
        · rw [hdc] at hcount ⊢
          exact ih4 hcount
        · exact ih5 d hd2 hcount
    · by_cases hB : cats.count c = cats.count b ∧ strLtB c b = true
      · rw [show pickMode cats b c = c from by unfold pickMode; rw [if_neg hA, if_pos hB]]
        obtain ⟨ih1, ih2, ih3, ih4, ih5⟩ := ih c
        refine ⟨?_, ?_, ?_, ?_, ?_⟩
        · rcases ih1 with hfc | hfm
          · exact Or.inr (by rw [hfc]; exact List.mem_cons_self c rest2)
          · exact Or.inr (List.mem_cons_of_mem c hfm)
        · exact le_trans (le_of_eq hB.1.symm) ih2
        · intro d hd
          rcases List.mem_cons.mp hd with hdc | hd2
          · rw [hdc]; exact ih2
          · exact ih3 d hd2
        · intro hcount
          have hcr : cats.count c = cats.count (rest2.foldl (pickMode cats) c) := by omega
          rcases ih4 hcr with heq | hlt
          · exact Or.inr (by rw [heq]; exact hB.2)
          · exact Or.inr (strLtB_trans hlt hB.2)
        · intro d hd hcount
          rcases List.mem_cons.mp hd with hdc | hd2
          · rw [hdc] at hcount ⊢
            exact ih4 hcount
          · exact ih5 d hd2 hcount
      · rw [show pickMode cats b c = b from by unfold pickMode; rw [if_neg hA, if_neg hB]]
        obtain ⟨ih1, ih2, ih3, ih4, ih5⟩ := ih b
        refine ⟨?_, ?_, ?_, ?_, ?_⟩
        · rcases ih1 with hfb | hfm
          · exact Or.inl hfb
          · exact Or.inr (List.mem_cons_of_mem c hfm)
        · exact ih2
        · intro d hd
          rcases List.mem_cons.mp hd with hdc | hd2
          · rw [hdc]
            exact le_trans (by omega) ih2
          · exact ih3 d hd2
        · exact ih4
        · intro d hd hcount
          rcases List.mem_cons.mp hd with hdc | hd2
          · rw [hdc] at hcount ⊢
            have hcb : cats.count c = cats.count b := by omega
            have hnlt : strLtB c b = false := by
              cases hlt : strLtB c b with
              | false => rfl
              | true => exact absurd ⟨hcb, hlt⟩ hB
            rcases strLtB_conn hnlt with hcbe | hbc
            · rw [hcbe]
              exact ih4 (by omega)
            · rcases ih4 (by omega) with heq | hrb
              · exact Or.inr (by rw [heq]; exact hbc)
              · exact Or.inr (strLtB_trans hrb hbc)
          · exact ih5 d hd2 hcount

/-- C6 (amended): the derived category is a most frequent category of the
merchant's debit transactions, and among the tied most frequent categories
it is the lexicographically smallest in the Python string order (the
pandas Series.mode result is sorted ascending and the source takes its
first element), not the earliest first occurrence in date order. -/
theorem C6_theorem (m : String) (ts : List Txn) (h : ts ≠ []) :
    (featureRowOf m ts).category ∈ ts.map (fun t => t.category) ∧
    (∀ c ∈ ts.map (fun t => t.category),
      (ts.map (fun t => t.category)).count c ≤
        (ts.map (fun t => t.category)).count ((featureRowOf m ts).category)) ∧
    (∀ c ∈ ts.map (fun t => t.category),
      (ts.map (fun t => t.category)).count c =
        (ts.map (fun t => t.category)).count ((featureRowOf m ts).category) →
      (featureRowOf m ts).category = c ∨
        strLtB ((featureRowOf m ts).category) c = true) := by
  cases ts with
  | nil => exact absurd rfl h
  | cons t rest =>
    have hcat : (featureRowOf m (t :: rest)).category =
        (rest.map (fun u => u.category)).foldl
          (pickMode (t.category :: rest.map (fun u => u.category))) t.category := rfl
    rw [hcat]
    simp only [List.map_cons]
    obtain ⟨s1, s2, s3, s4, s5⟩ :=
      foldl_pickMode_spec (t.category :: rest.map (fun u => u.category))
        (rest.map (fun u => u.category)) t.category
    refine ⟨?_, ?_, ?_⟩
    · rcases s1 with hh | hh
      · exact (by rw [hh]; exact List.mem_cons_self _ _)
      · exact List.mem_cons_of_mem _ hh
    · intro c hc
      rcases List.mem_cons.mp hc with rfl | hc2
      · exact s2
      · exact s3 c hc2
    · intro c hc hcount
      rcases List.mem_cons.mp hc with rfl | hc2
      · exact s4 hcount
      · exact s5 c hc2 hcount

/-- The earlier-dated of two tied-category debit rows of merchant m. -/
def exTieB : Txn := ⟨⟨2024, 1, 1⟩, "m", "b", 10, "debit", ""⟩

/-- The later-dated tied-category row. -/
def exTieA : Txn := ⟨⟨2024, 1, 2⟩, "m", "a", 20, "debit", ""⟩

/-- C6 counterexample: the merchant m has the tied categories b (earlier
date) and a (later date); the claim requires the derived category b, the
first-encountered tied value in date order, but the pipeline derives a,
the lexicographically smallest. -/
theorem C6_counterexample :
    ((run_heuristic_scoring [exTieB, exTieA]).merchants.map (fun r => r.category)) = ["a"] ∧
    ((sortByDate (expensesOf [exTieB, exTieA])).filter
      (fun t => t.merchant == "m")).map (fun t => t.category) = ["b", "a"] ∧
    ("a" : String) ≠ "b" := by
  decide

theorem C6_witness :
    (featureRowOf "m" [exTieB, exTieA]).category ∈
      [exTieB, exTieA].map (fun t => t.category) ∧
    (∀ c ∈ [exTieB, exTieA].map (fun t => t.category),
      ([exTieB, exTieA].map (fun t => t.category)).count c ≤
        ([exTieB, exTieA].map (fun t => t.category)).count
          ((featureRowOf "m" [exTieB, exTieA]).category)) ∧
    (∀ c ∈ [exTieB, exTieA].map (fun t => t.category),
      ([exTieB, exTieA].map (fun t => t.category)).count c =
        ([exTieB, exTieA].map (fun t => t.category)).count
          ((featureRowOf "m" [exTieB, exTieA]).category) →
      (featureRowOf "m" [exTieB, exTieA]).category = c ∨
        strLtB ((featureRowOf "m" [exTieB, exTieA]).category) c = true) :=
  C6_theorem "m" [exTieB, exTieA] (by simp)

/-- C10 (confirmed): a merchant that reaches the subscription summary with
an absent mean interval is given the frequency recurring, through the
explicit none branch of the frequency derivation. -/
theorem C10_theorem (l : List Txn) (mf : MerchantFeatures)
    (hm : mf ∈ (run_heuristic_scoring l).merchants)
    (hlab : mf.label = "likely_subscription" ∨ mf.label = "possible_subscription")
    (hint : mf.mean_interval_days = none) :
    ∃ s : Subscription, s ∈ detect_subscriptions l ∧
      s.merchant = mf.merchant ∧ s.frequency = "recurring" := by
  by_cases hex : expensesOf l = []
  · rw [run_empty l hex] at hm
    simp at hm
  · have hl : l ≠ [] := fun hnil => hex (by simp [expensesOf, hnil])
    have hl2 : l.isEmpty = false := by
      cases l with
      | nil => exact absurd rfl hl
      | cons a as => rfl
    have hfreq : (subscriptionOf (expensesOf l) mf).frequency = "recurring" := by
      show (match mf.mean_interval_days with
        | some v =>
          if 6 ≤ v ∧ v ≤ 8 then "weekly"
          else if 27 ≤ v ∧ v ≤ 33 then "monthly"
          else "recurring"
        | none => "recurring") = "recurring"
      rw [hint]
    have hmem2 : mf ∈ (run_heuristic_scoring l).merchants.filter
        (fun m => m.label == "likely_subscription" || m.label == "possible_subscription") :=
      List.mem_filter.mpr ⟨hm, by rcases hlab with h | h <;> simp [h]⟩
    have hbody : detect_subscriptions l = List.insertionSort spentGe
        (((run_heuristic_scoring l).merchants.filter
          (fun m => m.label == "likely_subscription" || m.label == "possible_subscription")).map
          (subscriptionOf (expensesOf l))) := by
      unfold detect_subscriptions
      rw [hl2]
      simp
    refine ⟨subscriptionOf (expensesOf l) mf, ?_, rfl, hfreq⟩
    rw [hbody, List.Perm.mem_iff (List.perm_insertionSort spentGe _)]
    exact List.mem_map_of_mem _ hmem2

theorem C10_witness :
    ∃ s : Subscription, s ∈ detect_subscriptions [exT1] ∧
      s.merchant = exMerchX.merchant ∧ s.frequency = "recurring" :=
  C10_theorem [exT1] exMerchX (by decide) (Or.inr (by decide)) (by decide)

/-- The per-transaction reading of the statistical outlier test of
_detect_anomalies: within the debit rows of the category of t, the sample
variance is defined and nonzero and the amount of t exceeds
mean + 2 * (sample std), encoded on the variance. -/
def isStatOutlier (l : List Txn) (t : Txn) : Bool :=
  let cdf := (expensesOf l).filter (fun u => u.category == t.category)
  let mean := meanQ (cdf.map (fun u => u.amount))
  match sampleVar (cdf.map (fun u => u.amount)) with
  | some v =>
    decide (v ≠ 0 ∧ 0 < t.amount - mean ∧
      4 * v < (t.amount - mean) * (t.amount - mean))
  | none => false

theorem mem_foldr_append {α β : Type} (F : α → List β) (cs : List α) (e : β) :
    e ∈ cs.foldr (fun c acc => F c ++ acc) [] ↔ ∃ c, c ∈ cs ∧ e ∈ F c := by
  induction cs with
  | nil => simp
  | cons c cs ih =>
    simp only [List.foldr_cons, List.mem_append, ih, List.mem_cons]
    constructor
    · rintro (he | ⟨d, hd, he⟩)
      · exact ⟨c, Or.inl rfl, he⟩
      · exact ⟨d, Or.inr hd, he⟩
    · rintro ⟨d, (rfl | hd), he⟩
      · exact Or.inl he
      · exact Or.inr ⟨d, hd, he⟩

theorem mem_statCat (l : List Txn) (c : String) (e : AnomalyEntry) :
    e ∈ statCat (expensesOf l) c ↔
      ∃ t, t ∈ expensesOf l ∧ t.category = c ∧ isStatOutlier l t = true ∧ e = mkEntry t := by
  simp only [statCat]
  by_cases h0 : sampleVar (((expensesOf l).filter (fun t => t.category == c)).map
      (fun t => t.amount)) = some 0
  · rw [if_pos h0]
    simp only [List.not_mem_nil, false_iff]
    rintro ⟨t, htex, htc, hout, rfl⟩
    simp only [isStatOutlier] at hout
    rw [htc, h0] at hout
    simp at hout
  · rw [if_neg h0]
    constructor
    · intro he
      obtain ⟨t, htf, rfl⟩ := List.mem_map.mp he
      obtain ⟨htc1, hcond⟩ := List.mem_filter.mp htf
      obtain ⟨htex, hbc⟩ := List.mem_filter.mp htc1
      have htc : t.category = c := by simpa using hbc
      refine ⟨t, htex, htc, ?_, rfl⟩
      simp only [isStatOutlier]
      rw [htc]
      cases hv : sampleVar (((expensesOf l).filter (fun u => u.category == c)).map
          (fun u => u.amount)) with
      | none =>
        rw [hv] at hcond
        simp [statOutlierCond] at hcond
      | some vv =>
        rw [hv] at hcond
        simp only [statOutlierCond, decide_eq_true_eq] at hcond
        simp only [decide_eq_true_eq]
        refine ⟨?_, hcond⟩
        intro hz
        rw [hz] at hv
        exact h0 hv
    · rintro ⟨t, htex, htc, hout, rfl⟩
      simp only [isStatOutlier] at hout
      rw [htc] at hout
      cases hv : sampleVar (((expensesOf l).filter (fun u => u.category == c)).map
          (fun u => u.amount)) with
      | none =>
        rw [hv] at hout
        simp at hout
      | some vv =>
        rw [hv] at hout
        simp only [decide_eq_true_eq] at hout
        refine List.mem_map.mpr ⟨t, List.mem_filter.mpr ⟨List.mem_filter.mpr
          ⟨htex, by simp [htc]⟩, ?_⟩, rfl⟩
        simp only [statOutlierCond, decide_eq_true_eq]
        exact hout.2

theorem mem_statEntries (l : List Txn) (e : AnomalyEntry) :
    e ∈ statEntries (expensesOf l) ↔
      ∃ t, t ∈ expensesOf l ∧ isStatOutlier l t = true ∧ e = mkEntry t := by
  unfold statEntries
  rw [mem_foldr_append]
  constructor
  · rintro ⟨c, _, he⟩
    obtain ⟨t, htex, _, hout, rfl⟩ := (mem_statCat l c e).mp he
    exact ⟨t, htex, hout, rfl⟩
  · rintro ⟨t, htex, hout, rfl⟩
    refine ⟨t.category, ?_, (mem_statCat l t.category (mkEntry t)).mpr
      ⟨t, htex, rfl, hout, rfl⟩⟩
    rw [mem_uniqList]
    exact List.mem_map_of_mem (fun u => u.category) htex

theorem noteFold_mono :
    ∀ (ts : List Txn) (acc : List AnomalyEntry) (a : AnomalyEntry),
      a ∈ acc → a ∈ noteFold acc ts := by
  intro ts
  induction ts with
  | nil => intro acc a h; exact h
  | cons t ts ih =>
    intro acc a h
    simp only [noteFold]
    split
    · exact ih acc a h
    · exact ih _ a (List.mem_append_left _ h)

theorem noteFold_src :
    ∀ (ts : List Txn) (acc : List AnomalyEntry) (a : AnomalyEntry),
      a ∈ noteFold acc ts → a ∈ acc ∨ ∃ t, t ∈ ts ∧ a = mkEntry t := by
  intro ts
  induction ts with
  | nil =>
    intro acc a h
    exact Or.inl h
  | cons t ts ih =>
    intro acc a h
    simp only [noteFold] at h
    by_cases hdup :
        (acc.any (fun x => x.merchant == t.merchant && x.date == t.date)) = true
    · rw [if_pos hdup] at h
      rcases ih acc a h with h1 | ⟨u, hu, he⟩
      · exact Or.inl h1
      · exact Or.inr ⟨u, List.mem_cons_of_mem t hu, he⟩
    · rw [if_neg hdup] at h
      rcases ih _ a h with h1 | ⟨u, hu, he⟩
      · rcases List.mem_append.mp h1 with h2 | h2
        · exact Or.inl h2
        · have h3 : a = mkEntry t := by simpa using h2
          exact Or.inr ⟨t, List.mem_cons_self t ts, h3⟩
      · exact Or.inr ⟨u, List.mem_cons_of_mem t hu, he⟩

theorem noteFold_covers :
    ∀ (ts : List Txn) (acc : List AnomalyEntry) (t : Txn), t ∈ ts →
      ∃ e, e ∈ noteFold acc ts ∧ e.merchant = t.merchant ∧ e.date = t.date := by
  intro ts
  induction ts with
  | nil => intro acc t h; simp at h
  | cons u ts ih =>
    intro acc t ht
    simp only [noteFold]
    rcases List.mem_cons.mp ht with rfl | ht2
    · by_cases hdup :
          (acc.any (fun x => x.merchant == t.merchant && x.date == t.date)) = true
      · rw [if_pos hdup]
        obtain ⟨x, hx, hpx⟩ := List.any_eq_true.mp hdup
        have hpx2 : x.merchant = t.merchant ∧ x.date = t.date := by
          simpa using hpx
        exact ⟨x, noteFold_mono ts acc x hx, hpx2.1, hpx2.2⟩
      · rw [if_neg hdup]
        refine ⟨mkEntry t, noteFold_mono ts _ _ ?_, rfl, rfl⟩
        exact List.mem_append_right _ (List.mem_singleton.mpr rfl)
    · split
      · exact ih acc t ht2
      · exact ih _ t ht2

theorem detect_anomalies_eq (l : List Txn) :
    detect_anomalies l = List.insertionSort amountGe
      (noteFold (statEntries (expensesOf l)) ((expensesOf l).filter hasAnomalyNote)) := by
  cases l with
  | nil => rfl
  | cons a as => rfl

/-- C9 (amended): the anomaly report is sorted by descending amount; every
reported entry is a debit row that is either a statistical outlier of its
category for the SAMPLE standard deviation (ddof 1, the pandas default the
source uses) or carries an anomaly note; every sample-std statistical
outlier is reported; and every note-flagged debit row has a reported entry
with its merchant and date (the dedup is against every previously
collected entry, statistical and note alike). -/
theorem C9_theorem (l : List Txn) :
    List.Sorted amountGe (detect_anomalies l) ∧
    (∀ e ∈ detect_anomalies l, ∃ t, t ∈ l ∧ t.ttype = "debit" ∧ e = mkEntry t ∧
      (isStatOutlier l t = true ∨ hasAnomalyNote t = true)) ∧
    (∀ t, t ∈ l → t.ttype = "debit" → isStatOutlier l t = true →
      mkEntry t ∈ detect_anomalies l) ∧
    (∀ t, t ∈ l → t.ttype = "debit" → hasAnomalyNote t = true →
      ∃ e, e ∈ detect_anomalies l ∧ e.merchant = t.merchant ∧ e.date = t.date) := by
  rw [detect_anomalies_eq]
  refine ⟨List.sorted_insertionSort amountGe _, ?_, ?_, ?_⟩
  · intro e he
    rw [List.Perm.mem_iff (List.perm_insertionSort amountGe _)] at he
    rcases noteFold_src _ _ _ he with hstat | ⟨t, htn, rfl⟩
    · obtain ⟨t, htex, hout, rfl⟩ := (mem_statEntries l e).mp hstat
      obtain ⟨htl, hdeb⟩ := List.mem_filter.mp htex
      exact ⟨t, htl, by simpa using hdeb, rfl, Or.inl hout⟩
    · obtain ⟨htex, hnote⟩ := List.mem_filter.mp htn
      obtain ⟨htl, hdeb⟩ := List.mem_filter.mp htex
      exact ⟨t, htl, by simpa using hdeb, rfl, Or.inr hnote⟩
  · intro t htl hdeb hout
    rw [List.Perm.mem_iff (List.perm_insertionSort amountGe _)]
    apply noteFold_mono
    exact (mem_statEntries l (mkEntry t)).mpr
      ⟨t, List.mem_filter.mpr ⟨htl, by simp [hdeb]⟩, hout, rfl⟩
  · intro t htl hdeb hnote
    have htn : t ∈ (expensesOf l).filter hasAnomalyNote :=
      List.mem_filter.mpr ⟨List.mem_filter.mpr ⟨htl, by simp [hdeb]⟩, hnote⟩
    obtain ⟨e, he, hm, hd⟩ := noteFold_covers _ (statEntries (expensesOf l)) t htn
    refine ⟨e, ?_, hm, hd⟩
    rw [List.Perm.mem_iff (List.perm_insertionSort amountGe _)]
    exact he

/-- The divergence ledger for C9: one category with debit amounts
0, 0, 0, 0, 4, 10. The population variance is 125/9, so 10 exceeds
mean + 2 * (population std); the sample variance is 50/3, so nothing
exceeds mean + 2 * (sample std). -/
def exAnom : List Txn :=
  [⟨⟨2024, 1, 1⟩, "a1", "food", 0, "debit", ""⟩,
   ⟨⟨2024, 1, 2⟩, "a2", "food", 0, "debit", ""⟩,
   ⟨⟨2024, 1, 3⟩, "a3", "food", 0, "debit", ""⟩,
   ⟨⟨2024, 1, 4⟩, "a4", "food", 0, "debit", ""⟩,
   ⟨⟨2024, 1, 5⟩, "a5", "food", 4, "debit", ""⟩,
   ⟨⟨2024, 1, 6⟩, "a6", "food", 10, "debit", ""⟩]

/-- The food-category debit amounts of the exAnom ledger. -/
def exAnomAmounts : List Rat :=
  ((expensesOf exAnom).filter (fun t => t.category == "food")).map (fun t => t.amount)

/-- C9 counterexample: the ledger exAnom contains a debit row of amount 10
whose category has nonzero population variance and whose amount exceeds
mean + 2 * (population std) (encoded on squares: the deviation is positive
and its square exceeds 4 times the population variance), so the claim
requires it to be flagged; the code flags nothing because it uses the
sample standard deviation. -/
theorem C9_counterexample :
    (⟨⟨2024, 1, 6⟩, "a6", "food", 10, "debit", ""⟩ : Txn) ∈ expensesOf exAnom ∧
    popVar exAnomAmounts ≠ 0 ∧
    0 < (10 : Rat) - meanQ exAnomAmounts ∧
    4 * popVar exAnomAmounts <
      ((10 : Rat) - meanQ exAnomAmounts) * (10 - meanQ exAnomAmounts) ∧
    detect_anomalies exAnom = [] := by
  decide

end CashCompass
